import Mathlib

/-!
Shallow embedding of the TPIE pipelining node framework from
`src/keyvi/3rdparty/tpie/tpie/pipelining/node.h`, together with the parts of
the framework (memory runtime, lifecycle executor, forwarding implementation,
token registry, step-overflow handler) whose bodies are not under `src/` and
are therefore modelled from the specification, as marked on each definition.

Machine integers (`memory_size_type`, `stream_size_type`) are modelled as
`Nat`; `double` parameters (memory fractions, datastructure priorities) are
modelled as nonnegative weights; `boost::any` is modelled as a tagged value
`TVal` with a runtime type tag `Ty`; `std::map` is modelled as an association
list with replacement on insert.
-/

namespace TpiePipelining

/-- Lifecycle states, from `enum STATE` in `node.h` (lines 83-93). -/
inductive STATE where
  | STATE_FRESH
  | STATE_IN_PREPARE
  | STATE_AFTER_PREPARE
  | STATE_IN_PROPAGATE
  | STATE_AFTER_PROPAGATE
  | STATE_IN_BEGIN
  | STATE_AFTER_BEGIN
  | STATE_IN_END
  | STATE_AFTER_END
deriving DecidableEq, Repr, Fintype

/-- Name priorities, from `priority_type` as used in `node.h` and spec section 6. -/
inductive priority_type where
  | PRIORITY_USER
  | PRIORITY_HINT
  | PRIORITY_DEFAULT
deriving DecidableEq, Repr

/-- Runtime type tags for the `boost::any` model. `voidTy` is the type of a
default-constructed (empty) `boost::any`. -/
inductive Ty where
  | natTy
  | strTy
  | boolTy
  | voidTy
deriving DecidableEq, Repr

/-- Tagged values modelling `boost::any`: a value together with its runtime
type. `emptyV` is a default-constructed `boost::any`. -/
inductive TVal where
  | natV (n : Nat)
  | strV (s : String)
  | boolV (b : Bool)
  | emptyV
deriving DecidableEq, Repr

/-- The runtime type of a stored value (`boost::any::type()`). -/
def TVal.ty : TVal → Ty
  | .natV _ => .natTy
  | .strV _ => .strTy
  | .boolV _ => .boolTy
  | .emptyV => .voidTy

/-- The forwarded-value map `m_values : std::map<std::string, std::pair<boost::any, bool>>`
(`node.h` line 631), as an association list `key ↦ (value, explicitForward)`. -/
abbrev valuemap := List (String × TVal × Bool)

/-- Lookup in the forwarded-value map (`m_values.find` / `m_values[key]` read). -/
def lookupVal : valuemap → String → Option (TVal × Bool)
  | [], _ => none
  | (k', v, b) :: rest, k => if k' = k then some (v, b) else lookupVal rest k

/-- Store into the forwarded-value map (`m_values[key] = ...`): replaces the
entry for the key if present, otherwise appends it. -/
def setVal : valuemap → String → TVal → Bool → valuemap
  | [], k, v, b => [(k, v, b)]
  | (k', v', b') :: rest, k, v, b =>
      if k' = k then (k, v, b) :: rest else (k', v', b') :: setVal rest k v b

/-- `m_values.count(key)` (`node.h` line 450): number of entries for the key. -/
def countKey (m : valuemap) (k : String) : Nat :=
  m.countP (fun p => p.1 == k)

/-- `node::can_fetch` (`node.h` lines 435-437): `m_values.count(key) != 0`. -/
def can_fetch (m : valuemap) (k : String) : Bool :=
  countKey m k != 0

/-- Errors raised by `node::fetch` — both are `invalid_argument_exception`
in the source, with distinct diagnostics. -/
inductive FetchError where
  | nonexistentKey
  | typeMismatch
deriving DecidableEq, Repr

/-- `m_values[key]` as a `std::map::operator[]`: returns the stored pair,
default-constructing (empty `boost::any`, `false`) when absent. -/
def mapGetBracket (m : valuemap) (k : String) : (TVal × Bool) × valuemap :=
  match lookupVal m k with
  | some p => (p, m)
  | none => ((TVal.emptyV, false), setVal m k TVal.emptyV false)

/-- `node::fetch<T>` (`node.h` lines 448-465): if `m_values.count(key) == 0`,
raise `invalid_argument_exception` for a nonexistent key; otherwise
`boost::any_cast<T>(m_values[key].first)`, which succeeds when the stored
type equals `T` and raises a type-mismatch diagnostic otherwise (reading
`m_values[key]` again in the catch block). Returns the result together with
the (possibly modified) map. -/
def fetch (m : valuemap) (k : String) (t : Ty) : Except FetchError TVal × valuemap :=
  if countKey m k = 0 then (.error .nonexistentKey, m)
  else
    let r := mapGetBracket m k
    if r.1.1.ty = t then (.ok r.1.1, r.2)
    else
      let r2 := mapGetBracket r.2 k
      (.error .typeMismatch, r2.2)

/-- Modelled from the spec: the body of `node::add_forwarded_data`
(`node.h` lines 421-428 declares it; the implementation is not under `src/`).
Spec section 4.6: "If a downstream node already holds `(key, (_, true))` and
the incoming `explicit=false`, the incoming is dropped. Otherwise, the
incoming overwrites." -/
def add_forwarded_data (m : valuemap) (k : String) (v : TVal) (explicitForward : Bool) : valuemap :=
  match lookupVal m k with
  | some (_, true) => if explicitForward then setVal m k v explicitForward else m
  | _ => setVal m k v explicitForward

/-- Progress-accounting state of a node: `m_stepsLeft` (`node.h` line 636),
the total stepped on the underlying progress indicator `m_pi`, and the
number of overflow diagnostics recorded. -/
structure StepState where
  stepsLeft : Nat
  piSteps : Nat
  overflowDiagnostics : Nat
deriving DecidableEq, Repr

/-- Modelled from the spec: the body of `node::step_overflow` (`node.h`
line 487 declares it; the implementation is not under `src/`). Spec
sections 4.2 and 4.7: the overflow handler "reports a diagnostic and clamps
to zero"; it records one diagnostic per call. -/
def step_overflow (s : StepState) : StepState :=
  { s with stepsLeft := 0, overflowDiagnostics := s.overflowDiagnostics + 1 }

/-- `node::step` (`node.h` lines 493-503): if `m_stepsLeft < steps` invoke
`step_overflow()`, else `m_stepsLeft -= steps`; in either case forward
`steps` to the progress indicator (`m_pi->step(steps)`). -/
def step (s : StepState) (steps : Nat) : StepState :=
  let s' := if s.stepsLeft < steps then step_overflow s
            else { s with stepsLeft := s.stepsLeft - steps }
  { s' with piSteps := s'.piSteps + steps }

/-- The assertion at the top of `node::step` (`node.h` lines 494-497),
exactly as written in the source (the disjunct `STATE_IN_END` appears
twice there). -/
def step_state_assert (s : STATE) : Bool :=
  s = STATE.STATE_IN_END || s = STATE.STATE_IN_BEGIN ||
  s = STATE.STATE_AFTER_BEGIN || s = STATE.STATE_IN_END

/-- The hooks from which the spec permits calling `step`: `begin`, `go`,
`end`. -/
inductive StepHook where
  | inBegin
  | inGo
  | inEnd
deriving DecidableEq, Repr, Fintype

/-- Modelled from the spec: the lifecycle state the executor (not under
`src/`) has set when each hook runs — `IN_BEGIN` during `begin()`,
`AFTER_BEGIN` during `go()`, `IN_END` during `end()` (spec section 4.8). -/
def hookState : StepHook → STATE
  | .inBegin => .STATE_IN_BEGIN
  | .inGo => .STATE_AFTER_BEGIN
  | .inEnd => .STATE_IN_END

/-- Per-datastructure memory bounds, from `struct datastructure_info_t`
(`node.h` lines 587-592); the `double priority` field is modelled as a
nonnegative weight. -/
structure datastructure_info_t where
  min : Nat
  max : Nat
  priority : Nat
deriving DecidableEq, Repr

/-- The node map's shared datastructure table
`datastructuremap_t = std::map<std::string, std::pair<datastructure_info_t, boost::any>>`
(see `get_node_map()->get_datastructures()` in `node.h` lines 561, 577),
as an association list `name ↦ (info, stored value)`. An entry exists iff
the name has been registered; the stored value of a registered but never-set
name is an empty `boost::any`. -/
abbrev datastructuremap := List (String × datastructure_info_t × TVal)

/-- `structures.find(name)` on the datastructure table. -/
def lookupDS : datastructuremap → String → Option (datastructure_info_t × TVal)
  | [], _ => none
  | (n', i, v) :: rest, n => if n' = n then some (i, v) else lookupDS rest n

/-- `i->second.second = datastructure`: replace the stored value of an
existing entry, leaving its info untouched. -/
def setDSValue : datastructuremap → String → TVal → datastructuremap
  | [], _, _ => []
  | (n', i, v') :: rest, n, v =>
      if n' = n then (n', i, v) :: rest else (n', i, v') :: setDSValue rest n v

/-- Errors raised by `set_datastructure` / `get_datastructure`: a
`tpie::exception` for an unregistered name, and `boost::bad_any_cast`
(propagated out of `boost::any_cast`) for a stored type mismatch. -/
inductive DSError where
  | unregisteredDatastructure
  | typeMismatch
deriving DecidableEq, Repr

/-- `node::set_datastructure<T>` (`node.h` lines 559-568): find the name in
the node map's datastructure table; if absent, throw "attempted to set
non-registered datastructure"; otherwise store the value. -/
def set_datastructure (m : datastructuremap) (name : String) (v : TVal) :
    Except DSError datastructuremap :=
  match lookupDS m name with
  | none => .error .unregisteredDatastructure
  | some _ => .ok (setDSValue m name v)

/-- `node::get_datastructure<T>` (`node.h` lines 575-584): find the name; if
absent, throw "attempted to get non-registered datastructure"; otherwise
`boost::any_cast<T>` on the stored value, which succeeds exactly when the
stored type equals `T`. -/
def get_datastructure (m : datastructuremap) (name : String) (t : Ty) :
    Except DSError TVal :=
  match lookupDS m name with
  | none => .error .unregisteredDatastructure
  | some (_, v) => if v.ty = t then .ok v else .error .typeMismatch

/-- Errors of the pipelining framework relevant to the embedded operations. -/
inductive PipeError where
  | notInitiatorNode
  | lifecycleViolation
deriving DecidableEq, Repr

/-- Virtual dispatch of `node::go` (`node.h` lines 196-200): a subclass may
override `go`; `none` means the default implementation, which logs a warning
and throws `not_initiator_node`. The override, when present, is the
subclass's own behavior (its result value). -/
def go (goOverride : Option (Except PipeError Unit)) : Except PipeError Unit :=
  match goOverride with
  | none => .error .notInitiatorNode
  | some r => r

/-- `struct node_parameters` (`node.h` lines 51-62); `memoryFraction` is a
`double`, modelled as a nonnegative rational. -/
structure node_parameters where
  minimumMemory : Nat
  maximumMemory : Nat
  memoryFraction : Rat
  name : String
  namePriority : priority_type
  stepsTotal : Nat
deriving DecidableEq, Repr

/-- `node::set_breadcrumb` (`node.h` lines 255-257):
`m_parameters.name = m_parameters.name.empty() ? breadcrumb : (breadcrumb + " | " + m_parameters.name)`. -/
def set_breadcrumb (p : node_parameters) (breadcrumb : String) : node_parameters :=
  { p with name := if p.name = "" then breadcrumb else breadcrumb ++ " | " ++ p.name }

/-- `node::set_state` (`node.h` lines 291-293): the raw setter
`m_state = s`, performing no check itself. -/
def set_state (s : STATE) (current : STATE) : STATE := s

/-- Modelled from the spec: the lifecycle executor's guarded transition into
`IN_BEGIN` (the executor is repository code not under `src/`; `node.h` only
provides `set_state`). Spec section 4.8: "entering `IN_BEGIN` requires
`AFTER_PROPAGATE`; violations are `lifecycle_violation` and are fatal" —
on violation the error is raised and the state is not changed. -/
def transition_to_in_begin (current : STATE) : Except PipeError STATE :=
  if current = .STATE_AFTER_PROPAGATE then .ok (set_state .STATE_IN_BEGIN current)
  else .error .lifecycleViolation

/-- A node's identity facet: its token id and a reference (modelled as a
numeric handle) to its current owner object. -/
structure NodeRef where
  id : Nat
  owner : Nat
deriving DecidableEq, Repr

/-- The token registry `{node_id ↦ node_ref}` of a node map, as an
association list. -/
abbrev tokenmap := List (Nat × Nat)

/-- Lookup of a node reference by token id. -/
def lookupToken : tokenmap → Nat → Option Nat
  | [], _ => none
  | (i', o) :: rest, i => if i' = i then some o else lookupToken rest i

/-- Re-point the registry entry for an id to a new owner (replacing the
existing entry; absent ids are appended). -/
def repointToken : tokenmap → Nat → Nat → tokenmap
  | [], i, o => [(i, o)]
  | (i', o') :: rest, i, o =>
      if i' = i then (i, o) :: rest else (i', o') :: repointToken rest i o

/-- Modelled from the spec: the node copy/move constructor
(`node.h` lines 324-341 declare it; the implementation and the token logic
are not under `src/`). Spec sections 3 and 8: "Copying/moving a node must
preserve token identity and re-point the map entry to the new owner" — the
new node keeps the same token id, lives at the new owner location, and the
registry entry for that id is redirected there. -/
def copy_node (w : tokenmap) (n : NodeRef) (newOwner : Nat) : NodeRef × tokenmap :=
  ({ n with owner := newOwner }, repointToken w n.id newOwner)

/-- A memory consumer of a phase, spec section 4.4: a node contributes
`{min, max, weight = memory_fraction}`, a registered datastructure
`{min, max, weight = priority}`. Weights are modelled as nonnegative
naturals (proportions). -/
structure MemConsumer where
  cmin : Nat
  cmax : Nat
  weight : Nat
deriving DecidableEq, Repr

/-- The extra memory a consumer can absorb above its minimum. -/
def MemConsumer.cap (c : MemConsumer) : Nat := c.cmax - c.cmin

/-- Sum of the declared minima of a phase's consumers. -/
def sumMin (cs : List MemConsumer) : Nat := (cs.map MemConsumer.cmin).sum

/-- Total weight of the consumers still able to absorb memory (not yet
clamped at their max). -/
def activeWeight (st : List (MemConsumer × Nat)) : Nat :=
  (st.map (fun p => if p.2 < p.1.cap then p.1.weight else 0)).sum

/-- One consumer's share of a redistribution round: a not-yet-clamped
consumer receives its weight-proportional part of the remainder `R`
(`weight * R / W`), clamped so as not to exceed its remaining capacity;
a clamped consumer receives nothing. -/
def share (R W : Nat) (p : MemConsumer × Nat) : Nat :=
  if p.2 < p.1.cap then min (p.1.cap - p.2) (p.1.weight * R / W) else 0

/-- Modelled from the spec: one round of proportional redistribution
(spec section 4.4 step 3) over the state `(consumer, extra assigned so far)`,
returning the new state and the still-undistributed remainder. When no
consumer can absorb more (total active weight zero), the round is the
identity (fixed point). -/
def roundDistribute (st : List (MemConsumer × Nat)) (R : Nat) :
    List (MemConsumer × Nat) × Nat :=
  if activeWeight st = 0 then (st, R)
  else (st.map (fun p => (p.1, p.2 + share R (activeWeight st) p)),
        R - (st.map (share R (activeWeight st))).sum)

/-- Total extra memory (above the minima) assigned so far. -/
def extrasSum (st : List (MemConsumer × Nat)) : Nat :=
  (st.map (fun p => p.2)).sum

/-- Modelled from the spec: iterate redistribution rounds to a fixed point;
spec section 4.4 notes termination "in at most O(k) rounds where k is the
number of consumers", so the iteration is fuelled by the consumer count. -/
def distributeLoop : Nat → List (MemConsumer × Nat) → Nat → List (MemConsumer × Nat)
  | 0, st, _ => st
  | Nat.succ fuel, st, R =>
      let res := roundDistribute st R
      distributeLoop fuel res.1 res.2

/-- Failure of memory assignment, spec section 4.4 step 2. -/
inductive MemError where
  | insufficientMemory
deriving DecidableEq, Repr

/-- Modelled from the spec: the memory runtime's assignment for one phase
(spec section 4.4; `bits::memory_runtime` is repository code not under
`src/`, `node.h` line 397 only declares the `set_available_memory` callback).
Start all consumers at their min; if `Σ min > M`, fail with
`insufficient_memory`; otherwise distribute the remainder `M − Σ min`
proportionally to weights, clamped to `[min, max]`, iterating redistribution
to a fixed point; the resulting per-consumer values are the assignment. -/
def assign_memory (cs : List MemConsumer) (M : Nat) : Except MemError (List Nat) :=
  if M < sumMin cs then .error .insufficientMemory
  else
    let st := distributeLoop cs.length (cs.map (fun c => (c, 0))) (M - sumMin cs)
    .ok (st.map (fun p => p.1.cmin + p.2))

/-! ## Helper lemmas about the association-list maps -/

/-- Storing under a key makes that key's lookup yield exactly the stored pair. -/
theorem lookupVal_setVal_self (m : valuemap) (k : String) (v : TVal) (b : Bool) :
    lookupVal (setVal m k v b) k = some (v, b) := by
  induction m with
  | nil => simp [setVal, lookupVal]
  | cons hd tl ih =>
      obtain ⟨k', v', b'⟩ := hd
      by_cases h : k' = k
      · simp [setVal, lookupVal, h]
      · simp [setVal, lookupVal, h, ih]

/-- `m_values.count(key)` is zero exactly when the key is absent. -/
theorem countKey_eq_zero_iff (m : valuemap) (k : String) :
    countKey m k = 0 ↔ lookupVal m k = none := by
  induction m with
  | nil => simp [countKey, lookupVal]
  | cons hd tl ih =>
      obtain ⟨k', v', b'⟩ := hd
      by_cases h : k' = k
      · simp [countKey, lookupVal, h, List.countP_cons]
      · simpa [countKey, lookupVal, h, List.countP_cons] using ih

/-! ## C2: step budget accounting -/

/-- C2. For a node with residual budget `steps_left`, `step k` decrements the
budget by exactly `k` when `k ≤ steps_left` (recording no diagnostic); when
`k > steps_left` it invokes the overflow handler, which records exactly one
diagnostic and clamps the residual to zero rather than wrapping; in either
case execution continues and the underlying progress indicator is stepped by
`k`. -/
theorem step_budget_spec (s : StepState) (k : Nat) :
    (k ≤ s.stepsLeft →
        (step s k).stepsLeft = s.stepsLeft - k ∧
        (step s k).overflowDiagnostics = s.overflowDiagnostics) ∧
    (s.stepsLeft < k →
        (step s k).stepsLeft = 0 ∧
        (step s k).overflowDiagnostics = s.overflowDiagnostics + 1) ∧
    (step s k).piSteps = s.piSteps + k := by
  by_cases h : s.stepsLeft < k
  · refine ⟨fun hle => absurd hle (by omega), fun _ => ?_, ?_⟩ <;>
      simp [step, step_overflow, h]
  · refine ⟨fun _ => ?_, fun hlt => absurd hlt h, ?_⟩ <;>
      simp [step, step_overflow, h]

/-! ## C4: lifecycle transition into IN_BEGIN -/

/-- C4. The transition into `IN_BEGIN` succeeds exactly from
`AFTER_PROPAGATE`; attempted from any other state it raises
`lifecycle_violation` and the state change does not take place. -/
theorem transition_to_in_begin_spec (s : STATE) :
    (s = .STATE_AFTER_PROPAGATE →
        transition_to_in_begin s = .ok .STATE_IN_BEGIN) ∧
    (s ≠ .STATE_AFTER_PROPAGATE →
        transition_to_in_begin s = .error .lifecycleViolation) := by
  constructor <;> intro h <;> simp [transition_to_in_begin, set_state, h]

/-- Witness for C4: from `AFTER_PROPAGATE` the transition succeeds, and from
`FRESH` it fails with `lifecycle_violation`. -/
theorem transition_to_in_begin_spec_witness :
    transition_to_in_begin .STATE_AFTER_PROPAGATE = .ok .STATE_IN_BEGIN ∧
    transition_to_in_begin .STATE_FRESH = .error .lifecycleViolation :=
  ⟨(transition_to_in_begin_spec .STATE_AFTER_PROPAGATE).1 (by decide),
   (transition_to_in_begin_spec .STATE_FRESH).2 (by decide)⟩

/-! ## C7: default go() raises not_initiator_node -/

/-- C7. The default implementation of `go()` (a subclass that does not
override it) always raises `not_initiator_node`; `go()` can only succeed on
a node that overrides it. -/
theorem go_default_spec :
    go none = Except.error PipeError.notInitiatorNode ∧
    (∀ r, go (some r) = r) ∧
    (∀ ov u, go ov = Except.ok u → ov ≠ none) := by
  refine ⟨rfl, fun r => rfl, ?_⟩
  intro ov u h hn
  rw [hn] at h
  simp [go] at h

/-! ## C9: set_breadcrumb -/

/-- C9. `set_breadcrumb s` sets the name to `s` when the name was empty and
to `s ++ " | " ++ old name` otherwise, leaving every other node parameter
(including the name priority) unchanged. -/
theorem set_breadcrumb_spec (p : node_parameters) (b : String) :
    (p.name = "" → (set_breadcrumb p b).name = b) ∧
    (p.name ≠ "" → (set_breadcrumb p b).name = b ++ " | " ++ p.name) ∧
    (set_breadcrumb p b).minimumMemory = p.minimumMemory ∧
    (set_breadcrumb p b).maximumMemory = p.maximumMemory ∧
    (set_breadcrumb p b).memoryFraction = p.memoryFraction ∧
    (set_breadcrumb p b).namePriority = p.namePriority ∧
    (set_breadcrumb p b).stepsTotal = p.stepsTotal := by
  refine ⟨fun h => ?_, fun h => ?_, rfl, rfl, rfl, rfl, rfl⟩ <;>
    simp [set_breadcrumb, h]

/-- Witness for C9: a node named `"x"` breadcrumbed with `"crumb"` is renamed
to `"crumb | x"` with its priority untouched. -/
theorem set_breadcrumb_spec_witness :
    (set_breadcrumb ⟨0, 0, 0, "x", .PRIORITY_HINT, 0⟩ "crumb").name = "crumb" ++ " | " ++ "x" ∧
    (set_breadcrumb ⟨0, 0, 0, "x", .PRIORITY_HINT, 0⟩ "crumb").namePriority = .PRIORITY_HINT :=
  ⟨(set_breadcrumb_spec ⟨0, 0, 0, "x", .PRIORITY_HINT, 0⟩ "crumb").2.1 (by decide),
   (set_breadcrumb_spec ⟨0, 0, 0, "x", .PRIORITY_HINT, 0⟩ "crumb").2.2.2.2.2.1⟩

/-! ## C10: the state assertion in step() -/

/-- C10. The assertion at the top of `step()` accepts exactly the states
`IN_BEGIN`, `AFTER_BEGIN` and `IN_END` (the duplicated `IN_END` disjunct in
the source changes nothing), so it rejects every other state (`FRESH`,
`IN_PREPARE`, `AFTER_PREPARE`, `IN_PROPAGATE`, `AFTER_PROPAGATE`,
`AFTER_END`); under the precondition that `step` is called only from the
`begin`/`go`/`end` hooks — whose executor-set states are
`IN_BEGIN`/`AFTER_BEGIN`/`IN_END` — the assertion-failure branch is
unreachable. -/
theorem step_state_assert_spec :
    (∀ s : STATE, step_state_assert s = true ↔
        (s = .STATE_IN_BEGIN ∨ s = .STATE_AFTER_BEGIN ∨ s = .STATE_IN_END)) ∧
    (∀ h : StepHook, step_state_assert (hookState h) = true) := by
  constructor <;> decide

/-! ## C3: explicit forwarded values are sticky -/

/-- C3. Once a node holds a forwarded value for a key with `explicit=true`,
a later write for the same key with `explicit=false` leaves the map (and so
the stored value) unchanged, while an `explicit=true` write still overwrites
it; and when the key has no explicit entry (absent or `explicit=false`),
any incoming write overwrites it. -/
theorem add_forwarded_data_spec (m : valuemap) (k : String) (v : TVal) :
    (∀ v0, lookupVal m k = some (v0, true) →
        add_forwarded_data m k v false = m ∧
        lookupVal (add_forwarded_data m k v true) k = some (v, true)) ∧
    (∀ ef : Bool, (∀ v0, lookupVal m k ≠ some (v0, true)) →
        lookupVal (add_forwarded_data m k v ef) k = some (v, ef)) := by
  constructor
  · intro v0 h
    exact ⟨by simp [add_forwarded_data, h],
           by simp [add_forwarded_data, h, lookupVal_setVal_self]⟩
  · intro ef h
    unfold add_forwarded_data
    cases hl : lookupVal m k with
    | none => simp [lookupVal_setVal_self]
    | some p =>
        obtain ⟨v1, b1⟩ := p
        cases b1 with
        | true => exact absurd hl (h v1)
        | false => simp [lookupVal_setVal_self]

/-! ## C5: fetch -/

/-- C5. `fetch` returns the stored forwarded value when an entry for the key
exists with matching stored type; it raises a nonexistent-key error when the
key is absent and a type-mismatch error when the stored type differs; in both
error cases the forwarded-value map is returned unchanged. -/
theorem fetch_spec (m : valuemap) (k : String) (t : Ty) :
    (lookupVal m k = none → fetch m k t = (.error .nonexistentKey, m)) ∧
    (∀ v b, lookupVal m k = some (v, b) →
        (v.ty = t → fetch m k t = (.ok v, m)) ∧
        (v.ty ≠ t → fetch m k t = (.error .typeMismatch, m))) := by
  constructor
  · intro h
    have h0 : countKey m k = 0 := (countKey_eq_zero_iff m k).mpr h
    simp [fetch, h0]
  · intro v b h
    have hc : ¬ countKey m k = 0 := by
      intro h0
      rw [(countKey_eq_zero_iff m k).mp h0] at h
      cases h
    constructor <;> intro ht <;> simp [fetch, hc, mapGetBracket, h, ht]

/-! ## C6: datastructure set/get -/

/-- Replacing the stored value of a registered datastructure keeps its info
and makes lookup yield the new value. -/
theorem lookupDS_setDSValue_self (m : datastructuremap) (n : String) (v : TVal)
    (i : datastructure_info_t) (v0 : TVal) (h : lookupDS m n = some (i, v0)) :
    lookupDS (setDSValue m n v) n = some (i, v) := by
  induction m with
  | nil => cases h
  | cons hd tl ih =>
      obtain ⟨n', i', v'⟩ := hd
      by_cases hn : n' = n
      · simp [lookupDS, hn] at h
        simp [setDSValue, lookupDS, hn, h.1]
      · simp [lookupDS, hn] at h
        simp [setDSValue, lookupDS, hn, ih h]

/-- C6. `set_datastructure` raises an unregistered-datastructure error when
the name is not in the node map's datastructure table, as does
`get_datastructure`; once the name is registered and last set to `v` of type
`T`, `get_datastructure` at type `T` returns `v`, and at any other type it
raises a type-mismatch error. -/
theorem set_get_datastructure_spec (m : datastructuremap) (name : String)
    (v : TVal) (t : Ty) :
    (lookupDS m name = none →
        set_datastructure m name v = .error .unregisteredDatastructure ∧
        get_datastructure m name t = .error .unregisteredDatastructure) ∧
    (∀ m', set_datastructure m name v = .ok m' →
        (v.ty = t → get_datastructure m' name t = .ok v) ∧
        (v.ty ≠ t → get_datastructure m' name t = .error .typeMismatch)) := by
  constructor
  · intro h
    exact ⟨by simp [set_datastructure, h], by simp [get_datastructure, h]⟩
  · intro m' h
    unfold set_datastructure at h
    cases hl : lookupDS m name with
    | none => rw [hl] at h; cases h
    | some p =>
        obtain ⟨i, v0⟩ := p
        rw [hl] at h
        simp only [Except.ok.injEq] at h
        subst h
        have hset := lookupDS_setDSValue_self m name v i v0 hl
        constructor <;> intro ht <;> simp [get_datastructure, hset, ht]

/-! ## C8: copy/move preserves token identity -/

/-- Re-pointing an id makes the registry resolve that id to the new owner. -/
theorem lookupToken_repointToken_self (w : tokenmap) (i o : Nat) :
    lookupToken (repointToken w i o) i = some o := by
  induction w with
  | nil => simp [repointToken, lookupToken]
  | cons hd tl ih =>
      obtain ⟨i', o'⟩ := hd
      by_cases h : i' = i
      · simp [repointToken, lookupToken, h]
      · simp [repointToken, lookupToken, h, ih]

/-- Re-pointing an id leaves every other id's registry entry unchanged. -/
theorem lookupToken_repointToken_other (w : tokenmap) (i o j : Nat) (h : j ≠ i) :
    lookupToken (repointToken w i o) j = lookupToken w j := by
  induction w with
  | nil => simp [repointToken, lookupToken, Ne.symm h]
  | cons hd tl ih =>
      obtain ⟨i', o'⟩ := hd
      by_cases hi : i' = i
      · subst hi
        simp [repointToken, lookupToken, Ne.symm h]
      · simp [repointToken, lookupToken, hi, ih]

/-- C8. Copying (or moving) a node preserves its token identity — the id
after equals the id before — and re-points the node-map entry for that id to
the new owner, while the entry of every other id is unaffected. -/
theorem copy_node_spec (w : tokenmap) (n : NodeRef) (o : Nat) :
    (copy_node w n o).1.id = n.id ∧
    lookupToken (copy_node w n o).2 n.id = some o ∧
    (∀ j, j ≠ n.id → lookupToken (copy_node w n o).2 j = lookupToken w j) :=
  ⟨rfl, lookupToken_repointToken_self w n.id o,
   fun j hj => lookupToken_repointToken_other w n.id o j hj⟩

/-! ## C1: memory assignment invariants -/

/-- Integer division distributes sub-additively over addition. -/
theorem div_add_div_le (a b c : Nat) : a / c + b / c ≤ (a + b) / c := by
  rcases Nat.eq_zero_or_pos c with hc | hc
  · subst hc; simp
  · rw [Nat.le_div_iff_mul_le hc, Nat.add_mul]
    exact Nat.add_le_add (Nat.div_mul_le_self a c) (Nat.div_mul_le_self b c)

/-- Summing the floored proportional parts never exceeds the floored
proportional part of the sum. -/
theorem sum_map_mul_div_le (l : List Nat) (R W : Nat) :
    (l.map (fun w => w * R / W)).sum ≤ l.sum * R / W := by
  induction l with
  | nil => simp
  | cons a tl ih =>
      simp only [List.map_cons, List.sum_cons]
      calc a * R / W + (tl.map fun w => w * R / W).sum
            ≤ a * R / W + tl.sum * R / W := Nat.add_le_add_left ih _
        _ ≤ (a * R + tl.sum * R) / W := div_add_div_le _ _ _
        _ = (a + tl.sum) * R / W := by rw [← Nat.add_mul]

/-- A redistribution round hands out at most the remaining budget. -/
theorem round_spent_le (st : List (MemConsumer × Nat)) (R : Nat)
    (hW : activeWeight st ≠ 0) :
    (st.map (share R (activeWeight st))).sum ≤ R := by
  have h1 : (st.map (share R (activeWeight st))).sum ≤
      (st.map (fun p =>
        (if p.2 < p.1.cap then p.1.weight else 0) * R / activeWeight st)).sum := by
    apply List.sum_le_sum
    intro p _
    by_cases hc : p.2 < p.1.cap
    · simp only [share, hc, if_true, if_pos]
      exact min_le_right _ _
    · simp [share, hc]
  have h2 : (st.map (fun p =>
      (if p.2 < p.1.cap then p.1.weight else 0) * R / activeWeight st)).sum ≤
      activeWeight st * R / activeWeight st := by
    have := sum_map_mul_div_le
      (st.map (fun p => if p.2 < p.1.cap then p.1.weight else 0)) R (activeWeight st)
    rw [List.map_map] at this
    exact this
  have h3 : activeWeight st * R / activeWeight st = R :=
    Nat.mul_div_cancel_left R (Nat.pos_of_ne_zero hW)
  omega

/-- A redistribution round does not change which consumers participate. -/
theorem roundDistribute_fst (st : List (MemConsumer × Nat)) (R : Nat) :
    (roundDistribute st R).1.map Prod.fst = st.map Prod.fst := by
  unfold roundDistribute
  by_cases h : activeWeight st = 0
  · simp [h]
  · simp only [h, if_neg, if_false, List.map_map]
    rfl

/-- A redistribution round keeps every consumer's extra within its capacity. -/
theorem roundDistribute_cap (st : List (MemConsumer × Nat)) (R : Nat)
    (h : ∀ p ∈ st, p.2 ≤ p.1.cap) :
    ∀ p ∈ (roundDistribute st R).1, p.2 ≤ p.1.cap := by
  unfold roundDistribute
  by_cases hW : activeWeight st = 0
  · simpa [hW] using h
  · simp only [hW, if_false]
    intro p hp
    rcases List.mem_map.mp hp with ⟨q, hq, rfl⟩
    by_cases hc : q.2 < q.1.cap
    · simp only [share, hc, if_pos]
      have := min_le_left (q.1.cap - q.2) (q.1.weight * R / activeWeight st)
      omega
    · simp only [share, hc, if_neg, if_false]
      simpa using h q hq

/-- A redistribution round conserves the budget: extras assigned plus the
remainder never grow. -/
theorem roundDistribute_budget (st : List (MemConsumer × Nat)) (R : Nat) :
    extrasSum (roundDistribute st R).1 + (roundDistribute st R).2 ≤
      extrasSum st + R := by
  by_cases hW : activeWeight st = 0
  · simp [roundDistribute, hW]
  · have hspent := round_spent_le st R hW
    simp only [roundDistribute, hW, if_false]
    have hsum : extrasSum (st.map (fun p => (p.1, p.2 + share R (activeWeight st) p))) =
        extrasSum st + (st.map (share R (activeWeight st))).sum := by
      unfold extrasSum
      rw [List.map_map]
      have hfun : ((fun p : MemConsumer × Nat => p.2) ∘
          fun p : MemConsumer × Nat => (p.1, p.2 + share R (activeWeight st) p)) =
          fun p : MemConsumer × Nat => p.2 + share R (activeWeight st) p := rfl
      rw [hfun, List.sum_map_add]
    omega

/-- The redistribution loop does not change which consumers participate. -/
theorem distributeLoop_fst (fuel : Nat) :
    ∀ (st : List (MemConsumer × Nat)) (R : Nat),
      (distributeLoop fuel st R).map Prod.fst = st.map Prod.fst := by
  induction fuel with
  | zero => intro st R; rfl
  | succ f ih =>
      intro st R
      exact (ih _ _).trans (roundDistribute_fst st R)

/-- The redistribution loop keeps every consumer's extra within capacity. -/
theorem distributeLoop_cap (fuel : Nat) :
    ∀ (st : List (MemConsumer × Nat)) (R : Nat),
      (∀ p ∈ st, p.2 ≤ p.1.cap) →
      ∀ p ∈ distributeLoop fuel st R, p.2 ≤ p.1.cap := by
  induction fuel with
  | zero => intro st R h; exact h
  | succ f ih =>
      intro st R h
      exact ih _ _ (roundDistribute_cap st R h)

/-- The redistribution loop assigns at most the initial extras plus budget. -/
theorem distributeLoop_budget (fuel : Nat) :
    ∀ (st : List (MemConsumer × Nat)) (R : Nat),
      extrasSum (distributeLoop fuel st R) ≤ extrasSum st + R := by
  induction fuel with
  | zero => intro st R; exact Nat.le_add_right _ _
  | succ f ih =>
      intro st R
      have h1 := ih (roundDistribute st R).1 (roundDistribute st R).2
      have h2 := roundDistribute_budget st R
      calc extrasSum (distributeLoop f (roundDistribute st R).1 (roundDistribute st R).2)
            ≤ extrasSum (roundDistribute st R).1 + (roundDistribute st R).2 := h1
        _ ≤ extrasSum st + R := h2

/-- Starting every consumer at its minimum assigns zero extra memory. -/
theorem extrasSum_init (cs : List MemConsumer) :
    extrasSum (cs.map fun c => (c, 0)) = 0 := by
  induction cs with
  | nil => rfl
  | cons a tl ih => simpa [extrasSum] using ih

/-- Mapping two functions over the same list yields pointwise-related
lists. -/
theorem forall₂_map_map {α β γ : Type} (R : β → γ → Prop) (f : α → β) (g : α → γ) :
    ∀ l : List α, (∀ p ∈ l, R (f p) (g p)) →
      List.Forall₂ R (l.map f) (l.map g) := by
  intro l
  induction l with
  | nil => intro _; simp
  | cons a tl ih =>
      intro h
      simp only [List.map_cons]
      exact List.Forall₂.cons (h a (by simp))
        (ih (fun p hp => h p (by simp [hp])))

/-- C1. For every phase (each participating consumer declaring
`min ≤ max`) and total budget `M`: when the declared minima already exceed
`M`, memory assignment fails with `insufficient_memory` and assigns nothing;
otherwise every consumer's assigned memory `a` satisfies `min ≤ a ≤ max` and
the assigned amounts sum to at most `M`. -/
theorem assign_memory_spec (cs : List MemConsumer) (M : Nat)
    (hwf : ∀ c ∈ cs, c.cmin ≤ c.cmax) :
    (M < sumMin cs → assign_memory cs M = .error .insufficientMemory) ∧
    (∀ outs, assign_memory cs M = .ok outs →
        List.Forall₂ (fun c a => c.cmin ≤ a ∧ a ≤ c.cmax) cs outs ∧
        outs.sum ≤ M) := by
  constructor
  · intro h
    simp [assign_memory, h]
  · intro outs h
    by_cases hM : M < sumMin cs
    · simp [assign_memory, hM] at h
    · simp only [assign_memory, if_neg hM, Except.ok.injEq] at h
      subst h
      set st := distributeLoop cs.length (cs.map fun c => (c, 0)) (M - sumMin cs)
        with hst
      have hfst : st.map Prod.fst = cs := by
        rw [hst, distributeLoop_fst, List.map_map]
        have hid : (Prod.fst ∘ fun c : MemConsumer => (c, 0)) = id := rfl
        rw [hid, List.map_id]
      have hmem : ∀ p ∈ st, p.1 ∈ cs := by
        intro p hp
        rw [← hfst]
        exact List.mem_map.mpr ⟨p, hp, rfl⟩
      have hcap : ∀ p ∈ st, p.2 ≤ p.1.cap := by
        rw [hst]
        apply distributeLoop_cap
        intro p hp
        rcases List.mem_map.mp hp with ⟨c, _, rfl⟩
        simp
      have hbudget : extrasSum st ≤ M - sumMin cs := by
        rw [hst]
        have h1 := distributeLoop_budget cs.length (cs.map fun c => (c, 0))
          (M - sumMin cs)
        have h0 := extrasSum_init cs
        omega
      constructor
      · rw [← hfst]
        apply forall₂_map_map
        intro p hp
        have h1 := hcap p hp
        have h2 := hwf p.1 (hmem p hp)
        unfold MemConsumer.cap at h1
        exact ⟨Nat.le_add_right _ _, by omega⟩
      · have hsplit : (st.map (fun p => p.1.cmin + p.2)).sum =
            (st.map (fun p => p.1.cmin)).sum + extrasSum st := by
          rw [List.sum_map_add]
          rfl
        have hmins : (st.map (fun p => p.1.cmin)).sum = sumMin cs := by
          have hmm : st.map (fun p => p.1.cmin) =
              (st.map Prod.fst).map MemConsumer.cmin := by
            rw [List.map_map]
            rfl
          rw [hmm, hfst]
          rfl
        have hM' : sumMin cs ≤ M := Nat.le_of_not_lt hM
        omega

/-- Witness for C1: the phase of spec scenario 3 — consumers
`(min 1, max 10, weight 1)` and `(min 1, max 10, weight 3)` with budget 8 —
satisfies the well-formedness hypothesis, and the theorem's conclusions hold
for it. -/
theorem assign_memory_spec_witness :
    (8 < sumMin ([⟨1, 10, 1⟩, ⟨1, 10, 3⟩] : List MemConsumer) →
        assign_memory ([⟨1, 10, 1⟩, ⟨1, 10, 3⟩] : List MemConsumer) 8 =
          .error .insufficientMemory) ∧
    (∀ outs, assign_memory ([⟨1, 10, 1⟩, ⟨1, 10, 3⟩] : List MemConsumer) 8 = .ok outs →
        List.Forall₂ (fun c a => c.cmin ≤ a ∧ a ≤ c.cmax)
          ([⟨1, 10, 1⟩, ⟨1, 10, 3⟩] : List MemConsumer) outs ∧
        outs.sum ≤ 8) :=
  assign_memory_spec ([⟨1, 10, 1⟩, ⟨1, 10, 3⟩] : List MemConsumer) 8 (by decide)

end TpiePipelining
